import Mathlib

/-!
Shallow embedding of the pseudoterminal session controller of the AITerm
repository (`src/aiterm/gui/terminal.py`, class `PseudoTerminal`): the
screen-buffer escape-sequence interpreter (`_process_escape_sequence`,
`_process_output`), the renderer (`_get_screen_content`), and the
stop/read-loop lifecycle (`stop`, `_read_loop`).

Python machine model used throughout: Python integers are unbounded, so
cursor coordinates are `Int`; Python list indexing admits negative indices
(offset from the end) and raises `IndexError` when out of range, modelled by
`pyListGet` / `pyListSet` returning `Except`; unresolvable global names
raise `NameError`, modelled by `resolveName` over the module's import list.
-/

namespace AITerm

/-- Python exceptions the embedded code can raise. -/
inductive PyExc where
  | indexError : PyExc
  | nameError : String → PyExc
deriving DecidableEq, Repr

/-- View an `Except` as a `Sum`, to transport decidable equality. -/
def exceptToSum {e a : Type} : Except e a → e ⊕ a
  | .error x => .inl x
  | .ok x => .inr x

instance {e a : Type} [DecidableEq e] [DecidableEq a] : DecidableEq (Except e a) := fun x y =>
  decidable_of_iff (exceptToSum x = exceptToSum y) (by cases x <;> cases y <;> simp [exceptToSum])

/-- Python list read `l[i]`: negative indices count from the end;
out-of-range access raises `IndexError`. -/
def pyListGet {α : Type} (l : List α) (i : Int) : Except PyExc α :=
  let j : Int := if i < 0 then i + l.length else i
  if 0 ≤ j then
    match l[j.toNat]? with
    | some a => .ok a
    | none => .error .indexError
  else .error .indexError

/-- Python list element assignment `l[i] = a`: negative indices count from
the end; out-of-range assignment raises `IndexError`. -/
def pyListSet {α : Type} (l : List α) (i : Int) (a : α) : Except PyExc (List α) :=
  let j : Int := if i < 0 then i + l.length else i
  if 0 ≤ j ∧ j.toNat < l.length then .ok (l.set j.toNat a) else .error .indexError

/-- The index at which a Python read/write `l[i]` lands on a list of length
`n` (meaningful when `-n ≤ i < n`). -/
def pyIndex (n : Nat) (i : Int) : Nat :=
  (if i < 0 then i + n else i).toNat

/-- Python `range(a, b)` (step 1), over unbounded integers. -/
def pyRange (a b : Int) : List Int :=
  (List.range (b - a).toNat).map fun k => a + k

/-- The characters stripped by Python `str.rstrip()` (the `str.isspace`
whitespace set). -/
def pyIsSpace (c : Char) : Bool :=
  c ∈ ([' ', '\t', '\n', '\x0b', '\x0c', '\r',
        '\x1c', '\x1d', '\x1e', '\x1f', '\x85', '\xa0',
        '\u1680', '\u2000', '\u2001', '\u2002', '\u2003', '\u2004', '\u2005',
        '\u2006', '\u2007', '\u2008', '\u2009', '\u200a', '\u2028', '\u2029',
        '\u202f', '\u205f', '\u3000'] : List Char)

/-- Python `str.rstrip()` on a character list. -/
def pyRstrip (l : List Char) : List Char :=
  (l.reverse.dropWhile pyIsSpace).reverse

/-- Python `str.isdigit()` restricted to ASCII digits (the only digits
occurring in escape-sequence parameters). -/
def pyIsDigit (s : List Char) : Bool :=
  !s.isEmpty && s.all Char.isDigit

/-- Python `int(p)` for a nonempty ASCII-digit string. -/
def digitsToNat (s : List Char) : Nat :=
  s.foldl (fun n c => 10 * n + (c.toNat - '0'.toNat)) 0

/-- `int(p) if p.isdigit() else 0` (terminal.py line 119). -/
def parseParam (p : List Char) : Nat :=
  if pyIsDigit p then digitsToNat p else 0

/-- The ESC control character. -/
def escChar : Char := '\x1b'

/-- The backspace control character. -/
def backspaceChar : Char := '\x08'

/-- Membership in the terminator string
`'abcdefghijklmnopqrstuvwxyzABCDEFGHIJKLMNOPQRSTUVWXYZ@'`
(terminal.py line 144). -/
def isEscTerminator (c : Char) : Bool :=
  ('a' ≤ c && c ≤ 'z') || ('A' ≤ c && c ≤ 'Z') || c = '@'

/-- Screen-buffer state of `PseudoTerminal` (terminal.py lines 60-90):
`rows`/`cols` fixed dimensions, `screen` the cell grid, integer cursor
coordinates, the saved cursor pair and the alternate-screen flag. -/
structure TermState where
  rows : Nat
  cols : Nat
  screen : List (List Char)
  cursor_x : Int
  cursor_y : Int
  saved_cursor : Int × Int
  alternate_screen : Bool
deriving DecidableEq, Repr

/-- `_init_screen` grid: `rows` lines of `cols` blanks (terminal.py line 94). -/
def initScreen (rows cols : Nat) : List (List Char) :=
  List.replicate rows (List.replicate cols ' ')

/-- The screen-buffer fields as set up by `__init__` (terminal.py lines 71-89). -/
def initState (rows cols : Nat) : TermState :=
  { rows := rows, cols := cols, screen := initScreen rows cols,
    cursor_x := 0, cursor_y := 0, saved_cursor := (0, 0), alternate_screen := false }

/-- `_clear_screen` (terminal.py lines 96-100): reset the grid and move the
cursor to the origin. -/
def clearScreen (st : TermState) : TermState :=
  { st with screen := initScreen st.rows st.cols, cursor_x := 0, cursor_y := 0 }

/-- `_process_escape_sequence(seq)` (terminal.py lines 102-134).  `seq` is
the sequence text after the ESC byte, including the final letter. -/
def processEscape (st : TermState) (seq : List Char) : Except PyExc TermState :=
  if seq.take 2 = ['[', '?'] then
    -- mode changes; `mode = seq[2:-1]`
    let mode := (seq.drop 2).dropLast
    if mode = ['1', '0', '4', '9'] then
      if seq.contains 'h' then .ok { clearScreen st with alternate_screen := true }
      else if seq.contains 'l' then .ok { clearScreen st with alternate_screen := false }
      else .ok st
    else .ok st
  else if seq.take 1 = ['['] then
    match seq.getLast? with
    | none => .ok st
    | some cmd =>
      -- `params = seq[1:-1].split(';')` mapped through `parseParam`
      let params := (((seq.drop 1).dropLast).splitOn ';').map parseParam
      if cmd = 'H' then
        -- cursor position: `(params[0] if params else 1) - 1`,
        -- `(params[1] if len(params) > 1 else 1) - 1`
        .ok { st with
          cursor_y := (match params with | [] => (1 : Int) | p :: _ => (p : Int)) - 1,
          cursor_x := (match params with | _ :: q :: _ => (q : Int) | _ => (1 : Int)) - 1 }
      else if cmd = 'J' then
        -- clear screen when `params[0] == 2`
        match params with
        | [] => .error .indexError
        | p :: _ => if p = 2 then .ok (clearScreen st) else .ok st
      else if cmd = 'K' then
        -- clear from cursor to end of line when `not params or params[0] == 0`
        if params.isEmpty || params.headD 1 = 0 then do
          let row ← pyListGet st.screen st.cursor_y
          let row' ← (pyRange st.cursor_x st.cols).foldlM (fun r x => pyListSet r x ' ') row
          let screen' ← pyListSet st.screen st.cursor_y row'
          .ok { st with screen := screen' }
        else .ok st
      else if cmd = 's' then
        .ok { st with saved_cursor := (st.cursor_x, st.cursor_y) }
      else if cmd = 'u' then
        .ok { st with cursor_x := st.saved_cursor.1, cursor_y := st.saved_cursor.2 }
      else .ok st
  else .ok st

/-- The printable-character branch of `_process_output` (terminal.py lines
159-162): write at the cursor and advance one column, guarded only by
`cursor_x < cols and cursor_y < rows`. -/
def writeChar (st : TermState) (c : Char) : Except PyExc TermState :=
  if st.cursor_x < (st.cols : Int) ∧ st.cursor_y < (st.rows : Int) then do
    let row ← pyListGet st.screen st.cursor_y
    let row' ← pyListSet row st.cursor_x c
    let screen' ← pyListSet st.screen st.cursor_y row'
    .ok { st with screen := screen', cursor_x := st.cursor_x + 1 }
  else .ok st

/-- Line wrapping (terminal.py lines 165-167). -/
def wrapStep (st : TermState) : TermState :=
  if (st.cols : Int) ≤ st.cursor_x then
    { st with cursor_x := 0, cursor_y := st.cursor_y + 1 }
  else st

/-- Scrolling (terminal.py lines 170-173): `screen.pop(0)` (`IndexError` on
an empty list), append a blank row, reset `cursor_y`. -/
def scrollStep (st : TermState) : Except PyExc TermState :=
  if (st.rows : Int) ≤ st.cursor_y then
    match st.screen with
    | [] => .error .indexError
    | _ :: t => .ok { st with screen := t ++ [List.replicate st.cols ' '],
                              cursor_y := (st.rows : Int) - 1 }
  else .ok st

/-- The control/printable character dispatch of `_process_output`
(terminal.py lines 151-162). -/
def charStep (st : TermState) (c : Char) : Except PyExc TermState :=
  if c = '\n' then .ok { st with cursor_y := st.cursor_y + 1, cursor_x := 0 }
  else if c = '\r' then .ok { st with cursor_x := 0 }
  else if c = backspaceChar then .ok { st with cursor_x := max 0 (st.cursor_x - 1) }
  else if ' ' ≤ c then writeChar st c
  else .ok st

/-- One fall-through iteration of the `_process_output` loop on character
`c` (terminal.py lines 151-173): character dispatch, then the wrap and
scroll checks. -/
def handleChar (st : TermState) (c : Char) : Except PyExc TermState := do
  let st1 ← charStep st c
  scrollStep (wrapStep st1)

/-- The terminator scan of `_process_output` (terminal.py lines 143-145):
starting right after an ESC byte, return the sequence text up to and
including the first terminator letter, and the remaining input; `none` when
no terminator occurs in the rest of the chunk. -/
def scanSeq : List Char → Option (List Char × List Char)
  | [] => none
  | c :: t =>
    if isEscTerminator c then some ([c], t)
    else match scanSeq t with
      | some (s, r) => some (c :: s, r)
      | none => none

/-- Fuel-indexed main loop of `_process_output` (terminal.py lines 139-175).
Each loop iteration consumes at least one input character, so fuel equal to
the chunk length (see `process`) never runs out. -/
def processAux : Nat → TermState → List Char → Except PyExc TermState
  | _, st, [] => .ok st
  | 0, st, _ :: _ => .ok st
  | fuel + 1, st, c :: rest =>
    if c = escChar then
      match scanSeq rest with
      | some (seq, rest') => do
          let st' ← processEscape st seq
          processAux fuel st' rest'
      | none => do
          -- no terminator in the rest of the chunk: ESC falls through to the
          -- ordinary character branch and the scan resumes at the next byte
          let st' ← handleChar st c
          processAux fuel st' rest
    else do
      let st' ← handleChar st c
      processAux fuel st' rest

/-- `_process_output` on an already-decoded chunk of text. -/
def process (st : TermState) (text : List Char) : Except PyExc TermState :=
  processAux text.length st text

/-- `_process_output` on a string chunk. -/
def processStr (st : TermState) (chunk : String) : Except PyExc TermState :=
  process st chunk.toList

/-- Cursor overlay of `_get_screen_content` (terminal.py lines 306-310). -/
def renderCell (st : TermState) (y x : Nat) (ch : Char) : Char :=
  if (x : Int) = st.cursor_x ∧ (y : Int) = st.cursor_y then '█' else ch

/-- One rendered line of `_get_screen_content`: the overlaid row, rstripped. -/
def renderLine (st : TermState) (y : Nat) (row : List Char) : List Char :=
  pyRstrip (row.enum.map fun p => renderCell st y p.1 p.2)

/-- `_get_screen_content` (terminal.py lines 301-312). -/
def getScreenContent (st : TermState) : String :=
  String.intercalate "\n" (st.screen.enum.map fun p => String.mk (renderLine st p.1 p.2))

/-- Top-level names bound in module `aiterm.gui.terminal` (its import list,
terminal.py lines 5-26, plus the classes it defines).  Note `errno` is
absent: the module never imports it. -/
def terminalModuleNames : List String :=
  ["tk", "ttk", "scrolledtext", "tkfont", "os", "pty", "termios", "select",
   "fcntl", "struct", "signal", "threading", "queue", "subprocess", "re",
   "math", "CommandInterpreter", "CommandInterpretationError",
   "CommandExecutor", "OutputFormatter", "TerminalCompleter", "get_logger",
   "logger", "RoundedFrame", "PseudoTerminal", "TerminalGUI"]

/-- Python global-name resolution in module `aiterm.gui.terminal`:
an unbound name raises `NameError`. -/
def resolveName (n : String) : Except PyExc Unit :=
  if terminalModuleNames.contains n then .ok () else .error (.nameError n)

/-- `errno.EINTR` on Linux. -/
def EINTR : Nat := 4

/-- `signal.SIGTERM`, the signal sent by `Popen.terminate()`. -/
def SIGTERM : Nat := 15

/-- `signal.SIGKILL`, the signal sent by `Popen.kill()`. -/
def SIGKILL : Nat := 9

/-- The child process handle: its pid and (because `start` uses
`preexec_fn=os.setsid`) its own process-group id. -/
structure Proc where
  pid : Nat
  pgid : Nat
deriving DecidableEq, Repr

/-- Who a signal is delivered to: a single process (`os.kill` /
`Popen.terminate` / `Popen.kill`) or a whole process group (`os.killpg`). -/
inductive SigTarget where
  | onePid : Nat → SigTarget
  | wholeGroup : Nat → SigTarget
deriving DecidableEq, Repr

/-- Observable steps performed by `PseudoTerminal.stop` (terminal.py lines
231-268), in order. -/
inductive StopEvent where
  | setRunningFalse : StopEvent
  | deliverSignal : Nat → SigTarget → StopEvent
  | gracefulWait : Nat → StopEvent
  | graceTimeout : Nat → StopEvent
  | reapWait : StopEvent
  | closeMaster : StopEvent
deriving DecidableEq, Repr

/-- Session-lifecycle state of a `PseudoTerminal` (terminal.py lines 60-68):
the `running` flag, the optional child-process handle, the optional master
descriptor together with whether that descriptor is still open in the OS,
and how many times the exit callback has run. -/
structure Session where
  running : Bool
  process : Option Proc
  masterFd : Option Nat
  masterOpen : Bool
  exitCallbacks : Nat
deriving DecidableEq, Repr

/-- `PseudoTerminal.stop` (terminal.py lines 231-268).  `exitsInGrace` is
the environment choice of whether the child terminates within the 1-second
`wait(timeout=1)` grace period.  `Popen.terminate()` and `Popen.kill()`
signal the child pid only.  Closing an already-closed descriptor raises
`OSError(EBADF)`, whose handler evaluates `errno.EBADF` — an unbound name
in this module (`resolveName`). -/
def stopSession (exitsInGrace : Bool) (s : Session) : Except PyExc (Session × List StopEvent) := do
  -- "Set running to False first to prevent race conditions"
  let s0 := { s with running := false }
  let evs0 := [StopEvent.setRunningFalse]
  -- `if hasattr(self, 'process') and self.process:`
  let (s1, evs1) :=
    match s0.process with
    | none => (s0, evs0)
    | some p =>
      let termEv := StopEvent.deliverSignal SIGTERM (SigTarget.onePid p.pid)
      if exitsInGrace then
        ({ s0 with process := none }, evs0 ++ [termEv, StopEvent.gracefulWait 1])
      else
        ({ s0 with process := none },
         evs0 ++ [termEv, StopEvent.graceTimeout 1,
                  StopEvent.deliverSignal SIGKILL (SigTarget.onePid p.pid),
                  StopEvent.reapWait])
  -- `if self.master_fd is not None: try: os.close(...) except OSError ...`
  match s1.masterFd with
  | none => .ok (s1, evs1)
  | some _ =>
    if s1.masterOpen then
      .ok ({ s1 with masterFd := none, masterOpen := false },
           evs1 ++ [StopEvent.closeMaster])
    else do
      -- os.close raised OSError(EBADF); `e.errno != errno.EBADF` then
      -- looks up the unbound global `errno`
      let _ ← resolveName "errno"
      .ok ({ s1 with masterFd := none }, evs1)

/-- What one iteration of the `_read_loop` does when a read or write on the
master descriptor raises `OSError`/`IOError` with the given `errno` value
(terminal.py lines 292-294): the handler body is
`if e.errno != errno.EINTR: break`, and evaluating `errno.EINTR` first
resolves the global name `errno`. -/
inductive LoopAction where
  | continuePolling : LoopAction
  | exitLoop : LoopAction
deriving DecidableEq, Repr

def readLoopErrorHandler (eErrno : Nat) : Except PyExc LoopAction := do
  let _ ← resolveName "errno"
  if eErrno ≠ EINTR then .ok .exitLoop else .ok .continuePolling

/-- The `_read_loop` epilogue (terminal.py lines 296-299), run when the
`while` loop exits without an escaped exception: `running = False`, a
self-invoked `stop()`, then one exit-callback invocation (the callback is
always supplied by `TerminalGUI`). -/
def readLoopFinish (exitsInGrace : Bool) (s : Session) : Except PyExc (Session × List StopEvent) := do
  let (s1, evs) ← stopSession exitsInGrace { s with running := false }
  .ok ({ s1 with exitCallbacks := s1.exitCallbacks + 1 }, evs)

/-- Cursor position after processing a chunk from state `st` (for concrete
evaluation). -/
def cursorAfter (st : TermState) (chunk : String) : Option (Int × Int) :=
  (processStr st chunk).toOption.map fun t => (t.cursor_x, t.cursor_y)

/-- Screen grid after processing a chunk from state `st` (for concrete
evaluation). -/
def screenAfter (st : TermState) (chunk : String) : Option (List (List Char)) :=
  (processStr st chunk).toOption.map TermState.screen

/-- The event trace of `stop` (for concrete evaluation). -/
def stopEvents (exitsInGrace : Bool) (s : Session) : Option (List StopEvent) :=
  (stopSession exitsInGrace s).toOption.map Prod.snd

/-- Whether a stop trace ever signals a whole process group. -/
def signalsGroup (evs : List StopEvent) : Bool :=
  evs.any fun ev =>
    match ev with
    | StopEvent.deliverSignal _ (SigTarget.wholeGroup _) => true
    | _ => false

example : cursorAfter (initState 3 4) "\x1b[H" = some (0, -1) := by decide
example : cursorAfter (initState 3 4) "\x1b[2;3H" = some (2, 1) := by decide
example : cursorAfter (initState 2 2) "ab" = some (0, 1) := by decide
example : screenAfter (initState 3 4) "\x1b[0;0HX" =
    some [[' ',' ',' ',' '], [' ',' ',' ',' '], [' ',' ',' ','X']] := by decide
example : cursorAfter (initState 3 4) "\x1b[0;0HX" = some (0, -1) := by decide
example : screenAfter (initState 3 4) "\x1b[1" =
    some [['[','1',' ',' '], [' ',' ',' ',' '], [' ',' ',' ',' ']] := by decide
example : readLoopErrorHandler EINTR = .error (.nameError "errno") := by decide
example : getScreenContent (initState 2 3) = "█\n" := by decide

/-! ### Basic properties of the chunk interpreter -/

theorem exceptBind_congr {e a b : Type} (x : Except e a) (f g : a → Except e b)
    (h : ∀ v, f v = g v) : x >>= f = x >>= g := by
  cases x with
  | error err => rfl
  | ok v => exact h v

theorem processAux_nil (f : Nat) (st : TermState) : processAux f st [] = .ok st := by
  cases f <;> rfl

theorem scanSeq_length : ∀ {l s r : List Char}, scanSeq l = some (s, r) → r.length < l.length := by
  intro l
  induction l with
  | nil => intro s r h; exact absurd h (by simp [scanSeq])
  | cons c t ih =>
    intro s r h
    cases hc : isEscTerminator c with
    | true =>
      simp only [scanSeq, hc, if_true] at h
      cases h
      simp
    | false =>
      simp only [scanSeq, hc, Bool.false_eq_true, if_false] at h
      cases hst : scanSeq t with
      | none => rw [hst] at h; cases h
      | some pr =>
        obtain ⟨s', r'⟩ := pr
        rw [hst] at h
        cases h
        exact Nat.lt_succ_of_lt (ih hst)

theorem processAux_eq : ∀ (f : Nat) (st : TermState) (l : List Char), l.length ≤ f →
    processAux f st l = process st l := by
  intro f
  induction f using Nat.strong_induction_on with
  | _ f ih =>
    intro st l h
    cases l with
    | nil => rw [processAux_nil]; rfl
    | cons c rest =>
      cases f with
      | zero => simp at h
      | succ n =>
        have hr : rest.length ≤ n := by simpa using h
        show _ = processAux (rest.length + 1) st (c :: rest)
        simp only [processAux]
        by_cases hc : c = escChar
        · simp only [hc, if_true, reduceIte]
          cases hseq : scanSeq rest with
          | none =>
            refine exceptBind_congr _ _ _ fun st' => ?_
            exact (ih n (Nat.lt_succ_self n) st' rest hr).trans
              (ih rest.length (Nat.lt_succ_of_le hr) st' rest le_rfl).symm
          | some pr =>
            obtain ⟨seq, rest'⟩ := pr
            have hlt : rest'.length < rest.length := scanSeq_length hseq
            refine exceptBind_congr _ _ _ fun st' => ?_
            exact (ih n (Nat.lt_succ_self n) st' rest' (by omega)).trans
              (ih rest.length (Nat.lt_succ_of_le hr) st' rest' (by omega)).symm
        · simp only [if_neg hc]
          refine exceptBind_congr _ _ _ fun st' => ?_
          exact (ih n (Nat.lt_succ_self n) st' rest hr).trans
            (ih rest.length (Nat.lt_succ_of_le hr) st' rest le_rfl).symm

theorem process_nil (st : TermState) : process st [] = .ok st := rfl

theorem process_cons_esc (st : TermState) (rest seq rest' : List Char)
    (hs : scanSeq rest = some (seq, rest')) :
    process st (escChar :: rest) = processEscape st seq >>= fun st' => process st' rest' := by
  show processAux (rest.length + 1) st (escChar :: rest) = _
  simp only [processAux, if_pos rfl, hs]
  refine exceptBind_congr _ _ _ fun st' => ?_
  exact processAux_eq rest.length st' rest' (Nat.le_of_lt (scanSeq_length hs))

theorem process_cons_esc_none (st : TermState) (rest : List Char)
    (hs : scanSeq rest = none) :
    process st (escChar :: rest) = handleChar st escChar >>= fun st' => process st' rest := by
  show processAux (rest.length + 1) st (escChar :: rest) = _
  simp only [processAux, if_pos rfl, hs]
  refine exceptBind_congr _ _ _ fun st' => ?_
  exact processAux_eq rest.length st' rest le_rfl

theorem process_cons_chr (st : TermState) (c : Char) (rest : List Char)
    (hc : ¬ c = escChar) :
    process st (c :: rest) = handleChar st c >>= fun st' => process st' rest := by
  show processAux (rest.length + 1) st (c :: rest) = _
  simp only [processAux, if_neg hc]
  refine exceptBind_congr _ _ _ fun st' => ?_
  exact processAux_eq rest.length st' rest le_rfl

/-! ### Well-formedness of the screen grid -/

/-- The grid has exactly `rows` rows of exactly `cols` cells each. -/
def wfShape (st : TermState) : Prop :=
  st.screen.length = st.rows ∧ ∀ row ∈ st.screen, row.length = st.cols

instance (st : TermState) : Decidable (wfShape st) := by
  unfold wfShape; infer_instance

/-- Shape plus a cursor strictly inside the grid. -/
def wfStrict (st : TermState) : Prop :=
  wfShape st ∧ 0 ≤ st.cursor_x ∧ st.cursor_x < (st.cols : Int) ∧
    0 ≤ st.cursor_y ∧ st.cursor_y < (st.rows : Int)

instance (st : TermState) : Decidable (wfStrict st) := by
  unfold wfStrict; infer_instance

theorem exceptPureBind {e a b : Type} (v : a) (f : a → Except e b) :
    (Except.ok v : Except e a) >>= f = f v := rfl

theorem exceptErrBind {e a b : Type} (x : e) (f : a → Except e b) :
    (Except.error x : Except e a) >>= f = Except.error x := rfl

theorem pyListSet_inv {α : Type} {l l' : List α} {i : Int} {a : α}
    (h : pyListSet l i a = .ok l') : ∃ j, l' = l.set j a := by
  simp only [pyListSet] at h
  by_cases hc : 0 ≤ (if i < 0 then i + (l.length : Int) else i) ∧
      (if i < 0 then i + (l.length : Int) else i).toNat < l.length
  · rw [if_pos hc] at h
    exact ⟨_, (Except.ok.inj h).symm⟩
  · rw [if_neg hc] at h
    cases h

theorem pyListSet_length {α : Type} {l l' : List α} {i : Int} {a : α}
    (h : pyListSet l i a = .ok l') : l'.length = l.length := by
  obtain ⟨j, rfl⟩ := pyListSet_inv h
  exact List.length_set l j a

theorem pyListSet_mem {α : Type} {l l' : List α} {i : Int} {a b : α}
    (h : pyListSet l i a = .ok l') (hb : b ∈ l') : b ∈ l ∨ b = a := by
  obtain ⟨j, rfl⟩ := pyListSet_inv h
  exact List.mem_or_eq_of_mem_set hb

theorem pyListGet_mem {α : Type} {l : List α} {i : Int} {a : α}
    (h : pyListGet l i = .ok a) : a ∈ l := by
  simp only [pyListGet] at h
  by_cases h0 : 0 ≤ (if i < 0 then i + (l.length : Int) else i)
  · rw [if_pos h0] at h
    cases hg : l[(if i < 0 then i + (l.length : Int) else i).toNat]? with
    | none => rw [hg] at h; cases h
    | some b =>
      rw [hg] at h
      obtain ⟨hlt, hb⟩ := List.getElem?_eq_some_iff.mp hg
      cases h
      exact hb ▸ List.getElem_mem hlt
  · rw [if_neg h0] at h
    cases h

theorem pyListGet_in_range {α : Type} (d : α) (l : List α) (i : Int)
    (h1 : -(l.length : Int) ≤ i) (h2 : i < (l.length : Int)) :
    pyListGet l i = .ok (l.getD (pyIndex l.length i) d) := by
  have hj : pyIndex l.length i < l.length := by
    simp only [pyIndex]; split <;> omega
  have h0 : (0 : Int) ≤ if i < 0 then i + l.length else i := by split <;> omega
  simp only [pyListGet, pyIndex] at *
  rw [if_pos h0, List.getElem?_eq_getElem hj, List.getD_eq_getElem l d hj]

theorem pyListSet_in_range {α : Type} (l : List α) (i : Int) (a : α)
    (h1 : -(l.length : Int) ≤ i) (h2 : i < (l.length : Int)) :
    pyListSet l i a = .ok (l.set (pyIndex l.length i) a) := by
  have hj : pyIndex l.length i < l.length := by
    simp only [pyIndex]; split <;> omega
  have h0 : (0 : Int) ≤ if i < 0 then i + l.length else i := by split <;> omega
  simp only [pyListSet, pyIndex] at *
  rw [if_pos ⟨h0, hj⟩]

/-- The grid after a guarded in-place cell write `screen[y][x] = c`. -/
def setCell (g : List (List Char)) (y x : Nat) (c : Char) : List (List Char) :=
  g.set y ((g.getD y []).set x c)

theorem setCell_shape {g : List (List Char)} {rows cols y x : Nat} {c : Char}
    (hlen : g.length = rows) (hmem : ∀ row ∈ g, row.length = cols) (hy : y < rows) :
    (setCell g y x c).length = rows ∧ ∀ row ∈ setCell g y x c, row.length = cols := by
  constructor
  · simp [setCell, hlen]
  · intro row hrow
    rcases List.mem_or_eq_of_mem_set hrow with hmem' | rfl
    · exact hmem _ hmem'
    · rw [List.length_set, List.getD_eq_getElem g [] (by omega : y < g.length)]
      exact hmem _ (List.getElem_mem _)

/-- `writeChar` under the in-range guard: the write lands at the
Python-resolved (possibly negative-index) cell and the cursor advances. -/
theorem writeChar_in_range (st : TermState) (c : Char)
    (hwf : wfShape st)
    (hx1 : -(st.cols : Int) ≤ st.cursor_x) (hx2 : st.cursor_x < (st.cols : Int))
    (hy1 : -(st.rows : Int) ≤ st.cursor_y) (hy2 : st.cursor_y < (st.rows : Int)) :
    writeChar st c = .ok { st with
      screen := setCell st.screen (pyIndex st.rows st.cursor_y) (pyIndex st.cols st.cursor_x) c,
      cursor_x := st.cursor_x + 1 } := by
  obtain ⟨hlen, hmem⟩ := hwf
  have hy1' : -(st.screen.length : Int) ≤ st.cursor_y := by rw [hlen]; exact hy1
  have hy2' : st.cursor_y < (st.screen.length : Int) := by rw [hlen]; exact hy2
  have hg := pyListGet_in_range [] st.screen st.cursor_y hy1' hy2'
  rw [hlen] at hg
  have hylt : pyIndex st.rows st.cursor_y < st.screen.length := by
    rw [hlen]; simp only [pyIndex]; split <;> omega
  have hrowmem : st.screen.getD (pyIndex st.rows st.cursor_y) [] ∈ st.screen := by
    rw [List.getD_eq_getElem st.screen [] hylt]
    exact List.getElem_mem hylt
  have hrowlen : (st.screen.getD (pyIndex st.rows st.cursor_y) []).length = st.cols :=
    hmem _ hrowmem
  have hs1 := pyListSet_in_range (st.screen.getD (pyIndex st.rows st.cursor_y) [])
    st.cursor_x c (by rw [hrowlen]; exact hx1) (by rw [hrowlen]; exact hx2)
  rw [hrowlen] at hs1
  have hs2 := pyListSet_in_range st.screen st.cursor_y
    ((st.screen.getD (pyIndex st.rows st.cursor_y) []).set (pyIndex st.cols st.cursor_x) c)
    hy1' hy2'
  rw [hlen] at hs2
  unfold writeChar
  rw [if_pos ⟨hx2, hy2⟩, hg, exceptPureBind, hs1, exceptPureBind, hs2, exceptPureBind]
  rfl

/-- `writeChar` with the guard false: no write, no cursor move. -/
theorem writeChar_out_of_range (st : TermState) (c : Char)
    (h : (st.cols : Int) ≤ st.cursor_x ∨ (st.rows : Int) ≤ st.cursor_y) :
    writeChar st c = .ok st := by
  unfold writeChar
  rw [if_neg]
  intro hcon
  rcases h with h | h
  · exact absurd hcon.1 (not_lt.mpr h)
  · exact absurd hcon.2 (not_lt.mpr h)

/-! ### Inversion and preservation lemmas for the interpreter steps -/

theorem wrapStep_fields (st : TermState) :
    (wrapStep st).screen = st.screen ∧ (wrapStep st).rows = st.rows ∧
    (wrapStep st).cols = st.cols ∧ (wrapStep st).saved_cursor = st.saved_cursor ∧
    (wrapStep st).alternate_screen = st.alternate_screen := by
  unfold wrapStep; split <;> exact ⟨rfl, rfl, rfl, rfl, rfl⟩

theorem scrollStep_inv {st st' : TermState} (h : scrollStep st = .ok st') :
    st'.rows = st.rows ∧ st'.cols = st.cols ∧ st'.cursor_x = st.cursor_x ∧
    st'.saved_cursor = st.saved_cursor ∧ st'.alternate_screen = st.alternate_screen ∧
    (st'.screen = st.screen ∨
      ∃ r t, st.screen = r :: t ∧ st'.screen = t ++ [List.replicate st.cols ' ']) := by
  unfold scrollStep at h
  split at h
  · cases hsc : st.screen with
    | nil => rw [hsc] at h; cases h
    | cons r t =>
      rw [hsc] at h
      cases h
      exact ⟨rfl, rfl, rfl, rfl, rfl, Or.inr ⟨r, t, rfl, rfl⟩⟩
  · cases h
    exact ⟨rfl, rfl, rfl, rfl, rfl, Or.inl rfl⟩

/-- Combined wrap-then-scroll tail of a loop iteration. -/
theorem stepTail_inv {st1 st' : TermState} (h : scrollStep (wrapStep st1) = .ok st') :
    st'.rows = st1.rows ∧ st'.cols = st1.cols ∧
    st'.saved_cursor = st1.saved_cursor ∧ st'.alternate_screen = st1.alternate_screen ∧
    (wfShape st1 → wfShape st') := by
  obtain ⟨wsc, wrows, wcols, wsaved, walt⟩ := wrapStep_fields st1
  obtain ⟨h1, h2, _, h4, h5, h6⟩ := scrollStep_inv h
  refine ⟨h1.trans wrows, h2.trans wcols, h4.trans wsaved, h5.trans walt, ?_⟩
  rintro ⟨hlen, hmem⟩
  rcases h6 with he | ⟨r, t, hre, he⟩
  · constructor
    · rw [he, wsc, hlen, h1.trans wrows]
    · intro row hrow
      rw [he, wsc] at hrow
      rw [h2.trans wcols]
      exact hmem row hrow
  · rw [wsc] at hre
    constructor
    · rw [he]
      have : st1.screen.length = t.length + 1 := by rw [hre]; rfl
      rw [h1.trans wrows, List.length_append, List.length_singleton]
      omega
    · intro row hrow
      rw [he] at hrow
      rw [h2.trans wcols]
      rcases List.mem_append.mp hrow with hrow | hrow
      · exact hmem row (by rw [hre]; exact List.mem_cons_of_mem r hrow)
      · rw [List.mem_singleton.mp hrow, List.length_replicate, wcols]

theorem writeChar_inv {st : TermState} {c : Char} {st1 : TermState}
    (h : writeChar st c = .ok st1) :
    st1.rows = st.rows ∧ st1.cols = st.cols ∧ st1.cursor_y = st.cursor_y ∧
    st1.saved_cursor = st.saved_cursor ∧ st1.alternate_screen = st.alternate_screen ∧
    (wfShape st → wfShape st1) := by
  unfold writeChar at h
  split at h
  · cases hg : pyListGet st.screen st.cursor_y with
    | error e => rw [hg, exceptErrBind] at h; cases h
    | ok row =>
      rw [hg, exceptPureBind] at h
      cases hs1 : pyListSet row st.cursor_x c with
      | error e => rw [hs1, exceptErrBind] at h; cases h
      | ok row' =>
        rw [hs1, exceptPureBind] at h
        cases hs2 : pyListSet st.screen st.cursor_y row' with
        | error e => rw [hs2, exceptErrBind] at h; cases h
        | ok scr =>
          rw [hs2, exceptPureBind] at h
          cases h
          refine ⟨rfl, rfl, rfl, rfl, rfl, ?_⟩
          rintro ⟨hlen, hmem⟩
          constructor
          · show scr.length = st.rows
            rw [pyListSet_length hs2, hlen]
          · intro r hr
            show r.length = st.cols
            rcases pyListSet_mem hs2 hr with hr | rfl
            · exact hmem _ hr
            · rw [pyListSet_length hs1]
              exact hmem _ (pyListGet_mem hg)
  · cases h
    exact ⟨rfl, rfl, rfl, rfl, rfl, fun hw => hw⟩

theorem charStep_inv {st : TermState} {c : Char} {st1 : TermState}
    (h : charStep st c = .ok st1) :
    st1.rows = st.rows ∧ st1.cols = st.cols ∧
    st1.saved_cursor = st.saved_cursor ∧ st1.alternate_screen = st.alternate_screen ∧
    (wfShape st → wfShape st1) := by
  unfold charStep at h
  split at h
  · cases h; exact ⟨rfl, rfl, rfl, rfl, fun hw => hw⟩
  · split at h
    · cases h; exact ⟨rfl, rfl, rfl, rfl, fun hw => hw⟩
    · split at h
      · cases h; exact ⟨rfl, rfl, rfl, rfl, fun hw => hw⟩
      · split at h
        · obtain ⟨h1, h2, _, h4, h5, h6⟩ := writeChar_inv h
          exact ⟨h1, h2, h4, h5, h6⟩
        · cases h; exact ⟨rfl, rfl, rfl, rfl, fun hw => hw⟩

theorem handleChar_inv {st : TermState} {c : Char} {st' : TermState}
    (h : handleChar st c = .ok st') :
    st'.rows = st.rows ∧ st'.cols = st.cols ∧
    st'.saved_cursor = st.saved_cursor ∧ st'.alternate_screen = st.alternate_screen ∧
    (wfShape st → wfShape st') := by
  unfold handleChar at h
  cases hx : charStep st c with
  | error e => rw [hx, exceptErrBind] at h; cases h
  | ok st1 =>
    rw [hx, exceptPureBind] at h
    obtain ⟨r1, c1, s1, a1, w1⟩ := charStep_inv hx
    obtain ⟨r2, c2, s2, a2, w2⟩ := stepTail_inv h
    exact ⟨r2.trans r1, c2.trans c1, s2.trans s1, a2.trans a1, fun hw => w2 (w1 hw)⟩

theorem clearScreen_shape (st : TermState) : wfShape (clearScreen st) := by
  refine ⟨by simp [clearScreen, initScreen], ?_⟩
  intro row hrow
  have hr : row = List.replicate st.cols ' ' :=
    List.eq_of_mem_replicate (by simpa [clearScreen, initScreen] using hrow)
  simp [clearScreen, hr]

theorem foldClear_length : ∀ (xs : List Int) (r r' : List Char),
    List.foldlM (fun acc x => pyListSet acc x ' ') r xs = .ok r' → r'.length = r.length := by
  intro xs
  induction xs with
  | nil =>
    intro r r' h
    cases h
    rfl
  | cons x t ih =>
    intro r r' h
    simp only [List.foldlM] at h
    cases hs : pyListSet r x ' ' with
    | error e => rw [hs, exceptErrBind] at h; cases h
    | ok r1 =>
      rw [hs, exceptPureBind] at h
      have := ih r1 r' h
      rw [this, pyListSet_length hs]

theorem processEscape_inv {st : TermState} {seq : List Char} {st' : TermState}
    (h : processEscape st seq = .ok st') :
    st'.rows = st.rows ∧ st'.cols = st.cols ∧
    (seq.getLast? ≠ some 's' → st'.saved_cursor = st.saved_cursor) ∧
    (wfShape st → wfShape st') := by
  simp only [processEscape] at h
  split at h
  · split at h
    · split at h
      · cases h
        exact ⟨rfl, rfl, fun _ => rfl, fun _ => clearScreen_shape st⟩
      · split at h
        · cases h
          exact ⟨rfl, rfl, fun _ => rfl, fun _ => clearScreen_shape st⟩
        · cases h; exact ⟨rfl, rfl, fun _ => rfl, fun hw => hw⟩
    · cases h; exact ⟨rfl, rfl, fun _ => rfl, fun hw => hw⟩
  · split at h
    · split at h
      · cases h; exact ⟨rfl, rfl, fun _ => rfl, fun hw => hw⟩
      · rename_i cmd heq
        split at h
        · cases h; exact ⟨rfl, rfl, fun _ => rfl, fun hw => hw⟩
        · split at h
          · split at h
            · cases h
            · split at h
              · cases h; exact ⟨rfl, rfl, fun _ => rfl, fun _ => clearScreen_shape st⟩
              · cases h; exact ⟨rfl, rfl, fun _ => rfl, fun hw => hw⟩
          · split at h
            · split at h
              · cases hg : pyListGet st.screen st.cursor_y with
                | error e => rw [hg, exceptErrBind] at h; cases h
                | ok row =>
                  rw [hg, exceptPureBind] at h
                  cases hf : List.foldlM (fun r x => pyListSet r x ' ') row
                      (pyRange st.cursor_x st.cols) with
                  | error e => rw [hf, exceptErrBind] at h; cases h
                  | ok row' =>
                    rw [hf, exceptPureBind] at h
                    cases hs : pyListSet st.screen st.cursor_y row' with
                    | error e => rw [hs, exceptErrBind] at h; cases h
                    | ok scr =>
                      rw [hs, exceptPureBind] at h
                      cases h
                      refine ⟨rfl, rfl, fun _ => rfl, ?_⟩
                      rintro ⟨hlen, hmem⟩
                      constructor
                      · show scr.length = st.rows
                        rw [pyListSet_length hs, hlen]
                      · intro r hr
                        show r.length = st.cols
                        rcases pyListSet_mem hs hr with hr | rfl
                        · exact hmem _ hr
                        · rw [foldClear_length _ _ _ hf]
                          exact hmem _ (pyListGet_mem hg)
              · cases h; exact ⟨rfl, rfl, fun _ => rfl, fun hw => hw⟩
            · split at h
              · cases h
                rename_i hcmd
                refine ⟨rfl, rfl, ?_, fun hw => hw⟩
                intro hne
                exact absurd (heq.trans (by rw [hcmd])) hne
              · split at h
                · cases h; exact ⟨rfl, rfl, fun _ => rfl, fun hw => hw⟩
                · cases h; exact ⟨rfl, rfl, fun _ => rfl, fun hw => hw⟩
    · cases h; exact ⟨rfl, rfl, fun _ => rfl, fun hw => hw⟩

/-- Shape preservation along a whole chunk: a successful `process` keeps the
grid at `rows` rows of `cols` cells and never changes the dimensions. -/
theorem process_shape : ∀ (n : Nat) (l : List Char) (st st' : TermState),
    l.length ≤ n → wfShape st → process st l = .ok st' →
    wfShape st' ∧ st'.rows = st.rows ∧ st'.cols = st.cols := by
  intro n
  induction n with
  | zero =>
    intro l st st' hl hwf h
    have hnil : l = [] := List.eq_nil_of_length_eq_zero (Nat.le_zero.mp hl)
    subst hnil
    rw [process_nil] at h
    cases h
    exact ⟨hwf, rfl, rfl⟩
  | succ n ih =>
    intro l st st' hl hwf h
    cases l with
    | nil => rw [process_nil] at h; cases h; exact ⟨hwf, rfl, rfl⟩
    | cons c rest =>
      by_cases hc : c = escChar
      · subst hc
        cases hseq : scanSeq rest with
        | some pr =>
          obtain ⟨seq, rest'⟩ := pr
          rw [process_cons_esc st rest seq rest' hseq] at h
          cases hpe : processEscape st seq with
          | error e => rw [hpe, exceptErrBind] at h; cases h
          | ok st1 =>
            rw [hpe, exceptPureBind] at h
            obtain ⟨r1, c1, _, w1⟩ := processEscape_inv hpe
            have hlt := scanSeq_length hseq
            obtain ⟨hw, hr, hcc⟩ := ih rest' st1 st' (by simp at hl; omega) (w1 hwf) h
            exact ⟨hw, hr.trans r1, hcc.trans c1⟩
        | none =>
          rw [process_cons_esc_none st rest hseq] at h
          cases hhc : handleChar st escChar with
          | error e => rw [hhc, exceptErrBind] at h; cases h
          | ok st1 =>
            rw [hhc, exceptPureBind] at h
            obtain ⟨r1, c1, _, _, w1⟩ := handleChar_inv hhc
            obtain ⟨hw, hr, hcc⟩ := ih rest st1 st' (by simp at hl; omega) (w1 hwf) h
            exact ⟨hw, hr.trans r1, hcc.trans c1⟩
      · rw [process_cons_chr st c rest hc] at h
        cases hhc : handleChar st c with
        | error e => rw [hhc, exceptErrBind] at h; cases h
        | ok st1 =>
          rw [hhc, exceptPureBind] at h
          obtain ⟨r1, c1, _, _, w1⟩ := handleChar_inv hhc
          obtain ⟨hw, hr, hcc⟩ := ih rest st1 st' (by simp at hl; omega) (w1 hwf) h
          exact ⟨hw, hr.trans r1, hcc.trans c1⟩

theorem pyIndex_nonneg {n : Nat} {i : Int} (h : 0 ≤ i) : pyIndex n i = i.toNat := by
  unfold pyIndex
  rw [if_neg (not_lt.mpr h)]

/-- The wrap-scroll tail never raises from a state whose cursor is within
the closed bounds and not at the bottom-right outside corner. -/
theorem stepTail_wfStrict (st1 : TermState) (hsh : wfShape st1)
    (hc : 0 < st1.cols) (hr : 0 < st1.rows)
    (hx : 0 ≤ st1.cursor_x ∧ st1.cursor_x ≤ (st1.cols : Int))
    (hy : 0 ≤ st1.cursor_y ∧ st1.cursor_y ≤ (st1.rows : Int))
    (hd : st1.cursor_x < (st1.cols : Int) ∨ st1.cursor_y < (st1.rows : Int)) :
    ∃ st', scrollStep (wrapStep st1) = .ok st' ∧ wfStrict st' ∧
      st'.rows = st1.rows ∧ st'.cols = st1.cols ∧
      st'.saved_cursor = st1.saved_cursor := by
  obtain ⟨hlen, hmem⟩ := hsh
  by_cases hw : (st1.cols : Int) ≤ st1.cursor_x
  · -- wrap: cursor_x = cols, so cursor_y < rows
    have hyr : st1.cursor_y < (st1.rows : Int) := by
      rcases hd with hd | hd
      · exact absurd hd (not_lt.mpr hw)
      · exact hd
    unfold wrapStep
    rw [if_pos hw]
    unfold scrollStep
    by_cases hs : (st1.rows : Int) ≤ st1.cursor_y + 1
    · rw [if_pos hs]
      cases hscr : st1.screen with
      | nil => exfalso; rw [hscr] at hlen; simp at hlen; omega
      | cons r t =>
        refine ⟨_, rfl, ?_, rfl, rfl, rfl⟩
        refine ⟨⟨?_, ?_⟩, by simp <;> omega, by simp <;> omega, by simp <;> omega, by simp <;> omega⟩
        · show (t ++ [List.replicate st1.cols ' ']).length = st1.rows
          rw [List.length_append, List.length_singleton]
          rw [hscr] at hlen
          simp at hlen
          omega
        · intro row hrow
          show row.length = st1.cols
          rcases List.mem_append.mp hrow with hrow | hrow
          · exact hmem row (by rw [hscr]; exact List.mem_cons_of_mem r hrow)
          · rw [List.mem_singleton.mp hrow, List.length_replicate]
    · rw [if_neg hs]
      refine ⟨_, rfl, ⟨⟨hlen, hmem⟩, by simp <;> omega, by simp <;> omega, by simp <;> omega, by simp <;> omega⟩, rfl, rfl, rfl⟩
  · -- no wrap
    have hxc : st1.cursor_x < (st1.cols : Int) := lt_of_not_le hw
    unfold wrapStep
    rw [if_neg hw]
    unfold scrollStep
    by_cases hs : (st1.rows : Int) ≤ st1.cursor_y
    · rw [if_pos hs]
      cases hscr : st1.screen with
      | nil => exfalso; rw [hscr] at hlen; simp at hlen; omega
      | cons r t =>
        refine ⟨_, rfl, ?_, rfl, rfl, rfl⟩
        refine ⟨⟨?_, ?_⟩, by simpa using hx.1, by simpa using hxc, by simp <;> omega, by simp <;> omega⟩
        · show (t ++ [List.replicate st1.cols ' ']).length = st1.rows
          rw [List.length_append, List.length_singleton]
          rw [hscr] at hlen
          simp at hlen
          omega
        · intro row hrow
          show row.length = st1.cols
          rcases List.mem_append.mp hrow with hrow | hrow
          · exact hmem row (by rw [hscr]; exact List.mem_cons_of_mem r hrow)
          · rw [List.mem_singleton.mp hrow, List.length_replicate]
    · rw [if_neg hs]
      exact ⟨_, rfl, ⟨⟨hlen, hmem⟩, hx.1, hxc, hy.1, lt_of_not_le hs⟩, rfl, rfl, rfl⟩

/-- `charStep` never raises from a strictly in-bounds state, and leaves the
cursor within the closed bounds (off the bottom-right outside corner). -/
theorem charStep_wfStrict (st : TermState) (c : Char) (h : wfStrict st) :
    ∃ st1, charStep st c = .ok st1 ∧ wfShape st1 ∧
      st1.rows = st.rows ∧ st1.cols = st.cols ∧ st1.saved_cursor = st.saved_cursor ∧
      (0 ≤ st1.cursor_x ∧ st1.cursor_x ≤ (st1.cols : Int)) ∧
      (0 ≤ st1.cursor_y ∧ st1.cursor_y ≤ (st1.rows : Int)) ∧
      (st1.cursor_x < (st1.cols : Int) ∨ st1.cursor_y < (st1.rows : Int)) := by
  obtain ⟨⟨hlen, hmem⟩, hx0, hxc, hy0, hyr⟩ := h
  have hc0 : 0 < st.cols := by omega
  have hr0 : 0 < st.rows := by omega
  unfold charStep
  by_cases h1 : c = '\n'
  · rw [if_pos h1]
    exact ⟨_, rfl, ⟨hlen, hmem⟩, rfl, rfl, rfl,
      by constructor <;> simp <;> omega, by constructor <;> simp <;> omega,
      by left; simp <;> omega⟩
  · rw [if_neg h1]
    by_cases h2 : c = '\r'
    · rw [if_pos h2]
      exact ⟨_, rfl, ⟨hlen, hmem⟩, rfl, rfl, rfl,
        by constructor <;> simp <;> omega, ⟨hy0, le_of_lt hyr⟩, Or.inr hyr⟩
    · rw [if_neg h2]
      by_cases h3 : c = backspaceChar
      · rw [if_pos h3]
        exact ⟨_, rfl, ⟨hlen, hmem⟩, rfl, rfl, rfl,
          by constructor <;> simp <;> omega, ⟨hy0, le_of_lt hyr⟩, Or.inr hyr⟩
      · rw [if_neg h3]
        by_cases h4 : ' ' ≤ c
        · rw [if_pos h4]
          rw [writeChar_in_range st c ⟨hlen, hmem⟩ (by omega) hxc (by omega) hyr]
          refine ⟨_, rfl, ?_, rfl, rfl, rfl, by constructor <;> simp <;> omega,
            ⟨hy0, le_of_lt hyr⟩, Or.inr hyr⟩
          have hyy : pyIndex st.rows st.cursor_y < st.rows := by
            rw [pyIndex_nonneg hy0]; omega
          exact setCell_shape hlen hmem hyy
        · rw [if_neg h4]
          exact ⟨_, rfl, ⟨hlen, hmem⟩, rfl, rfl, rfl, ⟨hx0, le_of_lt hxc⟩,
            ⟨hy0, le_of_lt hyr⟩, Or.inl hxc⟩

/-- `handleChar` never raises from a strictly in-bounds state and preserves
strict well-formedness, the dimensions and the saved cursor. -/
theorem handleChar_wfStrict (st : TermState) (c : Char) (h : wfStrict st) :
    ∃ st', handleChar st c = .ok st' ∧ wfStrict st' ∧
      st'.rows = st.rows ∧ st'.cols = st.cols ∧ st'.saved_cursor = st.saved_cursor := by
  obtain ⟨st1, hcs, hsh, hrows, hcols, hsaved, hx, hy, hd⟩ := charStep_wfStrict st c h
  have hc0 : 0 < st1.cols := by
    rw [hcols]
    obtain ⟨_, hx0, hxc, _, _⟩ := h
    omega
  have hr0 : 0 < st1.rows := by
    rw [hrows]
    obtain ⟨_, _, _, hy0, hyr⟩ := h
    omega
  obtain ⟨st', htail, hwf', hr', hc', hs'⟩ := stepTail_wfStrict st1 hsh hc0 hr0 hx hy hd
  refine ⟨st', ?_, hwf', hr'.trans hrows, hc'.trans hcols, hs'.trans hsaved⟩
  unfold handleChar
  rw [hcs, exceptPureBind, htail]

theorem scanSeq_none {l : List Char} (h : ∀ c ∈ l, isEscTerminator c = false) :
    scanSeq l = none := by
  induction l with
  | nil => rfl
  | cons c t ih =>
    simp only [scanSeq, h c (List.mem_cons_self c t), Bool.false_eq_true, if_false]
    rw [ih fun d hd => h d (List.mem_cons_of_mem c hd)]

/-- From a strictly in-bounds state, an ESC byte that falls through the
character dispatch (no terminator ahead) changes nothing. -/
theorem handleChar_esc_eq (st : TermState) (h : wfStrict st) :
    handleChar st escChar = .ok st := by
  obtain ⟨hsh, hx0, hxc, hy0, hyr⟩ := h
  unfold handleChar charStep
  rw [if_neg (by decide : ¬ (escChar = '\n')), if_neg (by decide : ¬ (escChar = '\r')),
      if_neg (by decide : ¬ (escChar = backspaceChar)),
      if_neg (by decide : ¬ (' ' ≤ escChar)), exceptPureBind]
  unfold wrapStep
  rw [if_neg (not_le.mpr hxc)]
  unfold scrollStep
  rw [if_neg (not_le.mpr hyr)]

/-- Processing a terminator-free chunk never raises from a strictly
in-bounds state. -/
theorem process_no_term : ∀ (n : Nat) (l : List Char) (st : TermState),
    l.length ≤ n → (∀ c ∈ l, isEscTerminator c = false) → wfStrict st →
    ∃ st', process st l = .ok st' ∧ wfStrict st' := by
  intro n
  induction n with
  | zero =>
    intro l st hl _ hwf
    have hnil : l = [] := List.eq_nil_of_length_eq_zero (Nat.le_zero.mp hl)
    subst hnil
    exact ⟨st, process_nil st, hwf⟩
  | succ n ih =>
    intro l st hl hterm hwf
    cases l with
    | nil => exact ⟨st, process_nil st, hwf⟩
    | cons c rest =>
      have hrest : ∀ d ∈ rest, isEscTerminator d = false :=
        fun d hd => hterm d (List.mem_cons_of_mem c hd)
      by_cases hc : c = escChar
      · subst hc
        rw [process_cons_esc_none st rest (scanSeq_none hrest),
            handleChar_esc_eq st hwf, exceptPureBind]
        exact ih rest st (by simp at hl; omega) hrest hwf
      · rw [process_cons_chr st c rest hc]
        obtain ⟨st1, hh, hwf1, _, _, _⟩ := handleChar_wfStrict st c hwf
        rw [hh, exceptPureBind]
        exact ih rest st1 (by simp at hl; omega) hrest hwf1

/-- A printable character written strictly inside a row advances the cursor
one column with no wrap and no scroll. -/
theorem handleChar_printable_no_wrap (st : TermState) (c : Char) (h : wfStrict st)
    (hc : ' ' ≤ c) (hlt : st.cursor_x + 1 < (st.cols : Int)) :
    handleChar st c = .ok { st with
      screen := setCell st.screen st.cursor_y.toNat st.cursor_x.toNat c,
      cursor_x := st.cursor_x + 1 } := by
  obtain ⟨hsh, hx0, hxc, hy0, hyr⟩ := h
  have h1 : ¬ c = '\n' := by intro he; subst he; exact absurd hc (by decide)
  have h2 : ¬ c = '\r' := by intro he; subst he; exact absurd hc (by decide)
  have h3 : ¬ c = backspaceChar := by intro he; subst he; exact absurd hc (by decide)
  unfold handleChar charStep
  rw [if_neg h1, if_neg h2, if_neg h3, if_pos hc,
      writeChar_in_range st c hsh (by omega) hxc (by omega) hyr, exceptPureBind,
      pyIndex_nonneg hy0, pyIndex_nonneg hx0]
  unfold wrapStep
  rw [if_neg (by simp <;> omega)]
  unfold scrollStep
  rw [if_neg (by simp <;> omega)]

/-- A run of printable characters that fits strictly inside the current row
advances the cursor by exactly one column per character; the row never
changes and no wrap occurs. -/
theorem process_printables : ∀ (l : List Char) (st : TermState),
    wfStrict st → (∀ c ∈ l, ' ' ≤ c) → st.cursor_x + l.length < (st.cols : Int) →
    ∃ st', process st l = .ok st' ∧
      st'.cursor_x = st.cursor_x + l.length ∧ st'.cursor_y = st.cursor_y ∧ wfStrict st' := by
  intro l
  induction l with
  | nil =>
    intro st hwf _ _
    exact ⟨st, process_nil st, by simp, rfl, hwf⟩
  | cons c rest ih =>
    intro st hwf hpr hlen
    have hc : ' ' ≤ c := hpr c (List.mem_cons_self c rest)
    have hne : ¬ c = escChar := by intro he; subst he; exact absurd hc (by decide)
    have hlt : st.cursor_x + 1 < (st.cols : Int) := by simp at hlen; omega
    rw [process_cons_chr st c rest hne,
        handleChar_printable_no_wrap st c hwf hc hlt, exceptPureBind]
    obtain ⟨⟨hl0, hm0⟩, hx0, hxc, hy0, hyr⟩ := hwf
    have hyy : st.cursor_y.toNat < st.rows := by omega
    obtain ⟨st', hps, hx', hy', hwf'⟩ := ih
      { st with screen := setCell st.screen st.cursor_y.toNat st.cursor_x.toNat c,
                cursor_x := st.cursor_x + 1 }
      ⟨setCell_shape hl0 hm0 hyy, by simp <;> omega, by simp at hlen ⊢ <;> omega,
       by simp <;> omega, by simp <;> omega⟩
      (fun d hd => hpr d (List.mem_cons_of_mem c hd))
      (by simp at hlen ⊢ <;> omega)
    refine ⟨st', hps, ?_, hy', hwf'⟩
    rw [hx']
    simp only [List.length_cons]
    push_cast
    ring

/-- Newline on the last row: the grid rotates (first row dropped, blank row
appended) and the cursor stays on the last row at column 0. -/
theorem handleChar_newline_scroll (st : TermState) (hsh : wfShape st)
    (hr : 0 < st.rows) (hc : 0 < st.cols) (hy : st.cursor_y = (st.rows : Int) - 1) :
    handleChar st '\n' = .ok { st with
      screen := st.screen.drop 1 ++ [List.replicate st.cols ' '],
      cursor_x := 0, cursor_y := (st.rows : Int) - 1 } := by
  unfold handleChar charStep
  rw [if_pos rfl, exceptPureBind]
  unfold wrapStep
  rw [if_neg (by simp <;> omega)]
  unfold scrollStep
  rw [if_pos (by simp <;> omega)]
  cases hscr : st.screen with
  | nil =>
    exfalso
    have := hsh.1
    rw [hscr] at this
    simp at this
    omega
  | cons r t =>
    simp only [hscr]
    rw [List.drop_one, List.tail_cons]

/-- A printable character at the bottom-right cell: the write lands there,
then the cursor wraps and the grid scrolls. -/
theorem handleChar_wrap_scroll (st : TermState) (c : Char) (hsh : wfShape st)
    (hr : 0 < st.rows) (hc0 : 0 < st.cols) (hcp : ' ' ≤ c)
    (hx : st.cursor_x = (st.cols : Int) - 1) (hy : st.cursor_y = (st.rows : Int) - 1) :
    handleChar st c = .ok { st with
      screen := (setCell st.screen (st.rows - 1) (st.cols - 1) c).drop 1 ++
        [List.replicate st.cols ' '],
      cursor_x := 0, cursor_y := (st.rows : Int) - 1 } := by
  have h1 : ¬ c = '\n' := by intro he; subst he; exact absurd hcp (by decide)
  have h2 : ¬ c = '\r' := by intro he; subst he; exact absurd hcp (by decide)
  have h3 : ¬ c = backspaceChar := by intro he; subst he; exact absurd hcp (by decide)
  have hpy : pyIndex st.rows st.cursor_y = st.rows - 1 := by
    rw [pyIndex_nonneg (by omega)]; omega
  have hpx : pyIndex st.cols st.cursor_x = st.cols - 1 := by
    rw [pyIndex_nonneg (by omega)]; omega
  unfold handleChar charStep
  rw [if_neg h1, if_neg h2, if_neg h3, if_pos hcp,
      writeChar_in_range st c hsh (by omega) (by omega) (by omega) (by omega),
      exceptPureBind, hpy, hpx]
  unfold wrapStep
  rw [if_pos (by simp <;> omega)]
  unfold scrollStep
  rw [if_pos (by simp <;> omega)]
  cases hsc : setCell st.screen (st.rows - 1) (st.cols - 1) c with
  | nil =>
    exfalso
    have hl : (setCell st.screen (st.rows - 1) (st.cols - 1) c).length = st.rows := by
      rw [setCell, List.length_set, hsh.1]
    rw [hsc] at hl
    simp at hl
    omega
  | cons r t =>
    simp only [hsc]
    rw [List.drop_one, List.tail_cons]

/-! ### Save/restore round trip machinery -/

/-- A cursor movement or character write performed between a save and a
restore: either an ordinary character fed to the interpreter loop, or a
complete CSI sequence `ESC [ params cmd`. -/
inductive MidOp where
  | chr : Char → MidOp
  | csi : List Char → Char → MidOp
deriving DecidableEq, Repr

/-- Whether a mid operation is the save-cursor sequence. -/
def savesCursor : MidOp → Bool
  | .chr _ => false
  | .csi _ cmd => cmd == 's'

def applyMidOp (st : TermState) : MidOp → Except PyExc TermState
  | .chr c => handleChar st c
  | .csi ps cmd => processEscape st (('[' :: ps) ++ [cmd])

def applyMidOps : TermState → List MidOp → Except PyExc TermState
  | st, [] => .ok st
  | st, op :: t => do
      let st' ← applyMidOp st op
      applyMidOps st' t

theorem applyMidOp_saved {st : TermState} {op : MidOp} {st' : TermState}
    (hop : savesCursor op = false) (h : applyMidOp st op = .ok st') :
    st'.saved_cursor = st.saved_cursor := by
  cases op with
  | chr c => exact (handleChar_inv h).2.2.1
  | csi ps cmd =>
    refine (processEscape_inv h).2.2.1 ?_
    intro hlast
    rw [List.getLast?_concat] at hlast
    injection hlast with hc
    simp [savesCursor, hc] at hop

theorem applyMidOps_saved : ∀ (ops : List MidOp) (st st' : TermState),
    (∀ op ∈ ops, savesCursor op = false) → applyMidOps st ops = .ok st' →
    st'.saved_cursor = st.saved_cursor := by
  intro ops
  induction ops with
  | nil => intro st st' _ h; cases h; rfl
  | cons op t ih =>
    intro st st' hno h
    simp only [applyMidOps] at h
    cases hop : applyMidOp st op with
    | error e => rw [hop, exceptErrBind] at h; cases h
    | ok st1 =>
      rw [hop, exceptPureBind] at h
      rw [ih st1 st' (fun o ho => hno o (List.mem_cons_of_mem op ho)) h,
          applyMidOp_saved (hno op (List.mem_cons_self op t)) hop]

theorem processEscape_save (st : TermState) :
    processEscape st ['[', 's'] = .ok { st with saved_cursor := (st.cursor_x, st.cursor_y) } := rfl

theorem processEscape_restore (st : TermState) :
    processEscape st ['[', 'u'] =
      .ok { st with cursor_x := st.saved_cursor.1, cursor_y := st.saved_cursor.2 } := rfl

/-! ### Renderer -/

theorem enum_map_eq_range_map {α β : Type} (l : List α) (f : Nat × α → β) (g : Nat → β)
    (h : ∀ (i : Nat) (hi : i < l.length), f (i, l.get ⟨i, hi⟩) = g i) :
    l.enum.map f = (List.range l.length).map g := by
  apply List.ext_getElem (by simp)
  intro i h1 h2
  simp only [List.getElem_map, List.getElem_enum, List.getElem_range]
  have := h i (by simpa using h1)
  simpa [List.get_eq_getElem] using this

/-- The renderer's output line as the specification describes it: row `y`
of the grid with the cell under the cursor replaced by the block glyph when
the cursor is within bounds, then right-stripped. -/
def claimRenderLine (st : TermState) (y : Nat) : List Char :=
  pyRstrip ((st.screen.getD y []).enum.map fun p =>
    if 0 ≤ st.cursor_x ∧ st.cursor_x < (st.cols : Int) ∧
       0 ≤ st.cursor_y ∧ st.cursor_y < (st.rows : Int) ∧
       (p.1 : Int) = st.cursor_x ∧ (y : Int) = st.cursor_y
    then '█' else p.2)

theorem renderLine_eq_claim (st : TermState) (hwf : wfShape st)
    (y : Nat) (hy : y < st.screen.length) :
    renderLine st y st.screen[y] = claimRenderLine st y := by
  obtain ⟨hlen, hmem⟩ := hwf
  unfold renderLine claimRenderLine
  rw [List.getD_eq_getElem st.screen [] hy]
  congr 1
  apply List.map_congr_left
  intro p hp
  have hp1 : p.1 < st.screen[y].length := by
    have h1 := List.mem_enum_iff_getElem?.mp hp
    exact (List.getElem?_eq_some_iff.mp h1).1
  have hplen : st.screen[y].length = st.cols := hmem _ (List.getElem_mem hy)
  have hylen : y < st.rows := by omega
  unfold renderCell
  apply if_congr ?_ rfl rfl
  constructor
  · rintro ⟨hx, hyy⟩
    refine ⟨by omega, by rw [← hx]; exact_mod_cast (by omega : p.1 < st.cols), by omega,
      by rw [← hyy]; exact_mod_cast hylen, hx, hyy⟩
  · rintro ⟨_, _, _, _, hx, hyy⟩
    exact ⟨hx, hyy⟩

/-! ### Concrete example states -/

/-- A 3-row, 4-column screen with the cursor driven to `(-1, -1)` (the state
`ESC [0;0H` produces). -/
def exNegState : TermState := { initState 3 4 with cursor_x := -1, cursor_y := -1 }

/-- A live session: running, child pid 1234 in its own group, master fd 3 open. -/
def exSession : Session :=
  { running := true, process := some { pid := 1234, pgid := 1234 },
    masterFd := some 3, masterOpen := true, exitCallbacks := 0 }

/-- Whether a stop trace ever signals a whole process group (packaged for
concrete evaluation). -/
def stopSignalsGroup (exitsInGrace : Bool) (s : Session) : Option Bool :=
  (stopEvents exitsInGrace s).map signalsGroup

/-! ### Claim C1 -/

/-- Claim C1 (code evaluated at the failing input): whenever a read or write
on the master descriptor raises an OS error — whatever its errno, including
EINTR — the `_read_loop` handler body `if e.errno != errno.EINTR` evaluates
the global name `errno`, which the module never imports, so a `NameError`
escapes the handler instead of the loop continuing (EINTR) or exiting
normally (other errors).  The spec's intended behaviour is unreachable. -/
theorem readLoop_errorHandler_nameError (e : Nat) :
    readLoopErrorHandler e = .error (.nameError "errno") := by
  have h : resolveName "errno" = Except.error (PyExc.nameError "errno") := by decide
  unfold readLoopErrorHandler
  rw [h, exceptErrBind]

/-! ### Claim C2 -/

/-- Claim C2 (counterexample): processing `ESC [0;0H` then `X` on a 3×4
screen completes with cursor `(0, -1)` — outside `0 ≤ y` — and the write
aimed at the out-of-range position `(-1, -1)` landed in the bottom-right
cell `(3, 2)` instead of being clipped. -/
theorem cursor_bounds_cex :
    cursorAfter (initState 3 4) "\x1b[0;0HX" = some (0, -1) ∧
    screenAfter (initState 3 4) "\x1b[0;0HX" =
      some [[' ', ' ', ' ', ' '], [' ', ' ', ' ', ' '], [' ', ' ', ' ', 'X']] := by
  constructor <;> decide

/-- Amended claim C2, packaged: a printable write happens iff
`cursor_x < cols ∧ cursor_y < rows` (no lower-bound check); in that case it
lands at the Python-resolved index (negative coordinates index from the end
of the grid), otherwise the grid is untouched; and the cursor itself is not
clamped — `ESC [0;0H` drives it to `(-1, -1)`. -/
def WriteClipSpec (st : TermState) (c : Char) : Prop :=
  (st.cursor_x < (st.cols : Int) → st.cursor_y < (st.rows : Int) →
    writeChar st c = .ok { st with
      screen := setCell st.screen (pyIndex st.rows st.cursor_y) (pyIndex st.cols st.cursor_x) c,
      cursor_x := st.cursor_x + 1 }) ∧
  ((st.cols : Int) ≤ st.cursor_x ∨ (st.rows : Int) ≤ st.cursor_y →
    writeChar st c = .ok st) ∧
  cursorAfter (initState 3 4) "\x1b[0;0H" = some (-1, -1)

/-- Claim C2 (amended): cursor coordinates are not clamped by the
cursor-position sequence, and writes are clipped only against the upper
bounds; a write at negative coordinates is applied at the cell indexed from
the end of the grid rather than clipped. -/
theorem write_clips_upper_bounds_only (st : TermState) (c : Char)
    (hwf : wfShape st)
    (hx : -(st.cols : Int) ≤ st.cursor_x) (hy : -(st.rows : Int) ≤ st.cursor_y) :
    WriteClipSpec st c := by
  refine ⟨fun hx2 hy2 => writeChar_in_range st c hwf hx hx2 hy hy2,
    fun h => writeChar_out_of_range st c h, by decide⟩

/-- Witness for `write_clips_upper_bounds_only` at the concrete reachable
state `exNegState` and character `Z`. -/
theorem write_clips_upper_bounds_only_witness :
    (wfShape exNegState ∧ -(exNegState.cols : Int) ≤ exNegState.cursor_x ∧
      -(exNegState.rows : Int) ≤ exNegState.cursor_y) ∧
    WriteClipSpec exNegState 'Z' :=
  ⟨by refine ⟨by decide, by decide, by decide⟩,
   write_clips_upper_bounds_only exNegState 'Z' (by decide) (by decide) (by decide)⟩

/-! ### Claim C3 -/

/-- Claim C3 (counterexample): stopping a live session delivers SIGTERM via
`Popen.terminate()` to the child pid alone; no event in the stop trace
targets a process group. -/
theorem stop_signals_child_pid_only_cex :
    stopSignalsGroup true exSession = some false ∧
    stopEvents true exSession = some
      [StopEvent.setRunningFalse,
       StopEvent.deliverSignal SIGTERM (SigTarget.onePid 1234),
       StopEvent.gracefulWait 1, StopEvent.closeMaster] := by
  constructor <;> decide

/-- Amended claim C3, packaged: the exact stop sequence — `running` cleared
first, SIGTERM to the immediate child pid only, a 1-second graceful wait,
escalation to SIGKILL plus a reaping wait when the grace period elapses,
and finally the master descriptor is closed; the child handle and the
descriptor are cleared from the session. -/
def StopSeqSpec (s : Session) (p : Proc) (g : Bool) : Prop :=
  stopSession g s = .ok
    ({ s with running := false, process := none, masterFd := none, masterOpen := false },
     [StopEvent.setRunningFalse, StopEvent.deliverSignal SIGTERM (SigTarget.onePid p.pid)] ++
     (if g then [StopEvent.gracefulWait 1]
      else [StopEvent.graceTimeout 1, StopEvent.deliverSignal SIGKILL (SigTarget.onePid p.pid),
            StopEvent.reapWait]) ++
     [StopEvent.closeMaster])

/-- Claim C3 (amended): for every running session with a live child,
`stop()` first clears `running`, then delivers the graceful-termination
signal to the immediate child process only (not its process group),
escalates to a forced kill and reaps after the bounded grace period, and
closes the master descriptor. -/
theorem stop_sequence_spec_holds (s : Session) (p : Proc) (fd : Nat) (g : Bool)
    (hp : s.process = some p) (hfd : s.masterFd = some fd) (hopen : s.masterOpen = true) :
    StopSeqSpec s p g := by
  obtain ⟨run, proc, mfd, mopen, ecb⟩ := s
  simp only at hp hfd hopen
  subst hp hfd hopen
  cases g <;> rfl

/-- Witness for `stop_sequence_spec_holds` at `exSession` with the grace
period elapsing (forced-kill path). -/
theorem stop_sequence_spec_holds_witness :
    (exSession.process = some { pid := 1234, pgid := 1234 } ∧
      exSession.masterFd = some 3 ∧ exSession.masterOpen = true) ∧
    StopSeqSpec exSession { pid := 1234, pgid := 1234 } false :=
  ⟨⟨rfl, rfl, rfl⟩,
   stop_sequence_spec_holds exSession { pid := 1234, pgid := 1234 } 3 false rfl rfl rfl⟩

/-! ### Claim C4 -/

/-- Claim C4 (counterexample): the chunk `ESC [ 1` (unterminated escape at
end of chunk) raises no error, but its bytes are *not* dropped silently:
`[` and `1` are written to the grid as printable characters and the cursor
advances two columns. -/
theorem unterminated_escape_cex :
    screenAfter (initState 3 4) "\x1b[1" =
      some [['[', '1', ' ', ' '], [' ', ' ', ' ', ' '], [' ', ' ', ' ', ' ']] ∧
    cursorAfter (initState 3 4) "\x1b[1" = some (2, 0) := by
  constructor <;> decide

/-- Amended claim C4, packaged: on an unterminated escape sequence the ESC
byte itself is dropped (processing the chunk equals processing it without
the ESC) and processing completes without error — but the sequence's
remaining bytes are handled as ordinary characters. -/
def UntermEscSpec (st : TermState) (rest : List Char) : Prop :=
  process st (escChar :: rest) = process st rest ∧
  ∃ st', process st rest = .ok st' ∧ wfStrict st'

/-- Claim C4 (amended): for a chunk that is an ESC followed by bytes with no
terminating letter, the interpreter raises no error; the ESC byte produces
no change, and the remaining bytes are processed as ordinary text (printable
ones are written to the grid). -/
theorem unterminated_escape_dropped_esc_only (st : TermState) (rest : List Char)
    (hwf : wfStrict st) (hterm : ∀ c ∈ rest, isEscTerminator c = false) :
    UntermEscSpec st rest := by
  constructor
  · rw [process_cons_esc_none st rest (scanSeq_none hterm),
        handleChar_esc_eq st hwf, exceptPureBind]
  · exact process_no_term rest.length rest st le_rfl hterm hwf

/-- Witness for `unterminated_escape_dropped_esc_only` on the chunk
`ESC [ 1` from the initial 3×4 screen. -/
theorem unterminated_escape_dropped_esc_only_witness :
    (wfStrict (initState 3 4) ∧
      (∀ c ∈ ['[', '1'], isEscTerminator c = false)) ∧
    UntermEscSpec (initState 3 4) ['[', '1'] :=
  ⟨⟨by decide, by decide⟩,
   unterminated_escape_dropped_esc_only (initState 3 4) ['[', '1'] (by decide) (by decide)⟩

/-! ### Claim C5 -/

/-- Claim C5, packaged: `stop()` succeeds without error and without touching
the exit-callback count; a second `stop()` is a no-op (same state, no
error); the loop's own end-of-session path (`readLoopFinish`) fires the exit
callback exactly once; and a `stop()` after the session has ended is again a
no-op that fires no callback. -/
def StopIdempotent (s : Session) (g₁ g₂ : Bool) : Prop :=
  ∃ s₁ evs₁, stopSession g₁ s = .ok (s₁, evs₁) ∧
    s₁.exitCallbacks = s.exitCallbacks ∧
    stopSession g₂ s₁ = .ok (s₁, [StopEvent.setRunningFalse]) ∧
    ∃ s₂ evs₂, readLoopFinish g₁ s = .ok (s₂, evs₂) ∧
      s₂.exitCallbacks = s.exitCallbacks + 1 ∧
      stopSession g₂ s₂ = .ok (s₂, [StopEvent.setRunningFalse])

/-- Claim C5: calling `stop()` twice in succession, or after the session
ended via the pump loop's own stop, raises no error; `stop()` itself never
invokes the exit callback, so the callback fires at most once per session
(exactly once, on the loop's exit path). -/
theorem stop_idempotent_and_exit_once (s : Session) (g₁ g₂ : Bool)
    (hfd : s.masterFd = none ∨ s.masterOpen = true) :
    StopIdempotent s g₁ g₂ := by
  obtain ⟨run, proc, mfd, mopen, ecb⟩ := s
  unfold StopIdempotent
  cases mfd with
  | some fd =>
    have hop : mopen = true := by
      rcases hfd with h | h
      · exact absurd h (by simp)
      · exact h
    subst hop
    cases proc <;> cases g₁ <;> cases g₂ <;>
      exact ⟨_, _, rfl, rfl, rfl, _, _, rfl, rfl, rfl⟩
  | none =>
    cases mopen <;> cases proc <;> cases g₁ <;> cases g₂ <;>
      exact ⟨_, _, rfl, rfl, rfl, _, _, rfl, rfl, rfl⟩

/-- Witness for `stop_idempotent_and_exit_once` at the live `exSession`. -/
theorem stop_idempotent_and_exit_once_witness :
    (exSession.masterFd = none ∨ exSession.masterOpen = true) ∧
    StopIdempotent exSession true false :=
  ⟨Or.inr rfl, stop_idempotent_and_exit_once exSession true false (Or.inr rfl)⟩

/-! ### Claim C6 -/

/-- Claim C6 (counterexample): on a 2×2 screen, the two-put sequence `ab`
(length equal to `cols`) ends with cursor `(0, 1)`: the second put wrapped
to the next row instead of leaving the cursor at column 2. -/
theorem put_run_wrap_at_cols_cex :
    cursorAfter (initState 2 2) "ab" = some (0, 1) ∧
    ("ab".toList.length ≤ (initState 2 2).cols) := by
  constructor <;> decide

/-- Amended claim C6, packaged: after any prefix of `k` puts, the cursor sits
at column `k` on the unchanged row — one column per put, no wrap. -/
def PutRunSpec (st : TermState) (l : List Char) : Prop :=
  ∀ k, k ≤ l.length → ∃ st', process st (l.take k) = .ok st' ∧
    st'.cursor_x = (k : Int) ∧ st'.cursor_y = st.cursor_y ∧ wfStrict st'

/-- Claim C6 (amended): for every sequence of printable puts starting at
column 0 whose length is *strictly less than* `cols` (at exactly `cols` the
last put wraps), each put advances the cursor exactly one column and the row
never changes. -/
theorem put_run_increments_below_cols (st : TermState) (l : List Char)
    (hwf : wfStrict st) (hx : st.cursor_x = 0)
    (hpr : ∀ c ∈ l, ' ' ≤ c) (hlen : l.length < st.cols) :
    PutRunSpec st l := by
  intro k hk
  obtain ⟨st', hps, hx', hy', hwf'⟩ := process_printables (l.take k) st hwf
    (fun c hc => hpr c (List.take_subset k l hc))
    (by rw [hx, List.length_take]; simp; omega)
  refine ⟨st', hps, ?_, hy', hwf'⟩
  rw [hx', hx, List.length_take]
  simp
  omega

/-- Witness for `put_run_increments_below_cols`: two puts on a 2×3 screen. -/
theorem put_run_increments_below_cols_witness :
    (wfStrict (initState 2 3) ∧ (initState 2 3).cursor_x = 0 ∧
      (∀ c ∈ ['a', 'b'], ' ' ≤ c) ∧ ['a', 'b'].length < (initState 2 3).cols) ∧
    PutRunSpec (initState 2 3) ['a', 'b'] :=
  ⟨⟨by decide, by decide, by decide, by decide⟩,
   put_run_increments_below_cols (initState 2 3) ['a', 'b']
     (by decide) (by decide) (by decide) (by decide)⟩

/-! ### Claim C7 -/

/-- Claim C7, packaged: (i) a successful `process` of any chunk keeps the
grid at exactly `rows` rows of exactly `cols` cells (dimensions unchanged);
(ii) a newline on the last row discards the first row and appends one blank
row (FIFO rotation), keeping the cursor on the last row; (iii) a printable
put at the bottom-right cell writes, wraps, and performs the same FIFO
rotation. -/
def ScrollSpec (st : TermState) (chunk : List Char) (c : Char) : Prop :=
  (∀ st', process st chunk = .ok st' →
    wfShape st' ∧ st'.rows = st.rows ∧ st'.cols = st.cols) ∧
  (st.cursor_y = (st.rows : Int) - 1 →
    handleChar st '\n' = .ok { st with
      screen := st.screen.drop 1 ++ [List.replicate st.cols ' '],
      cursor_x := 0, cursor_y := (st.rows : Int) - 1 }) ∧
  (st.cursor_y = (st.rows : Int) - 1 → st.cursor_x = (st.cols : Int) - 1 → ' ' ≤ c →
    handleChar st c = .ok { st with
      screen := (setCell st.screen (st.rows - 1) (st.cols - 1) c).drop 1 ++
        [List.replicate st.cols ' '],
      cursor_x := 0, cursor_y := (st.rows : Int) - 1 })

/-- Claim C7: advancing the cursor past the last row (newline or wrap)
discards the first grid row and appends one blank row, and any successfully
processed chunk leaves the grid at exactly `rows` × `cols`. -/
theorem scroll_fifo_rotation_and_shape (st : TermState) (chunk : List Char) (c : Char)
    (hwf : wfShape st) (hr : 0 < st.rows) (hc : 0 < st.cols) :
    ScrollSpec st chunk c := by
  refine ⟨fun st' h => process_shape chunk.length chunk st st' le_rfl hwf h,
    fun hy => handleChar_newline_scroll st hwf hr hc hy,
    fun hy hx hcp => handleChar_wrap_scroll st c hwf hr hc hcp hx hy⟩

/-- Witness for `scroll_fifo_rotation_and_shape`: a 2×3 screen with the
cursor at the bottom-right cell, the chunk `hi\n`, and the put `X`. -/
theorem scroll_fifo_rotation_and_shape_witness :
    (wfShape { initState 2 3 with cursor_x := 2, cursor_y := 1 } ∧
      0 < ({ initState 2 3 with cursor_x := 2, cursor_y := 1 } : TermState).rows ∧
      0 < ({ initState 2 3 with cursor_x := 2, cursor_y := 1 } : TermState).cols) ∧
    ScrollSpec { initState 2 3 with cursor_x := 2, cursor_y := 1 } ("hi\n".toList) 'X' :=
  ⟨⟨by decide, by decide, by decide⟩,
   scroll_fifo_rotation_and_shape _ _ _ (by decide) (by decide) (by decide)⟩

/-! ### Claim C8 -/

/-- Claim C8 (code evaluated at the failing input): the cursor-position
sequence is indeed interpreted as 1-indexed `row;col` (`ESC [2;3H` puts the
cursor at row 1, column 2), but `ESC [ H` with no parameters leaves the
cursor at row −1, column 0 — not the top-left cell.  The empty parameter
string splits into `[""]`, a non-empty list, so the intended `else 1`
default is never taken for the row and the row parameter parses as 0. -/
theorem escH_defaults_eval :
    cursorAfter (initState 3 4) "\x1b[H" = some (0, -1) ∧
    cursorAfter (initState 3 4) "\x1b[2;3H" = some (2, 1) := by
  constructor <;> decide

/-! ### Claim C9 -/

/-- Claim C9: save cursor (`ESC [s`), then any sequence of cursor movements
and character writes none of which saves the cursor again, then restore
cursor (`ESC [u`), puts the cursor back at exactly the position current at
the save. -/
theorem save_restore_roundtrip (st st₁ st₂ st₃ : TermState) (ops : List MidOp)
    (hsave : processEscape st ['[', 's'] = .ok st₁)
    (hmid : applyMidOps st₁ ops = .ok st₂)
    (hno : ∀ op ∈ ops, savesCursor op = false)
    (hrestore : processEscape st₂ ['[', 'u'] = .ok st₃) :
    st₃.cursor_x = st.cursor_x ∧ st₃.cursor_y = st.cursor_y := by
  rw [processEscape_save] at hsave
  cases hsave
  rw [processEscape_restore] at hrestore
  cases hrestore
  have hs := applyMidOps_saved ops _ st₂ hno hmid
  rw [hs]
  exact ⟨rfl, rfl⟩

/-- A state with the cursor away from the origin, for the round-trip witness. -/
def exSaveState : TermState := { initState 3 4 with cursor_x := 2, cursor_y := 1 }

/-- Movements and writes between the save and the restore: a printable put,
a cursor jump far out of range, and a newline (which scrolls). -/
def exMidOps : List MidOp := [MidOp.chr 'a', MidOp.csi ['9', '9'] 'H', MidOp.chr '\n']

/-- Witness for `save_restore_roundtrip` on `exSaveState` and `exMidOps`. -/
theorem save_restore_roundtrip_witness :
    ∃ st₁ st₂ st₃,
      processEscape exSaveState ['[', 's'] = .ok st₁ ∧
      applyMidOps st₁ exMidOps = .ok st₂ ∧
      (∀ op ∈ exMidOps, savesCursor op = false) ∧
      processEscape st₂ ['[', 'u'] = .ok st₃ ∧
      st₃.cursor_x = exSaveState.cursor_x ∧ st₃.cursor_y = exSaveState.cursor_y := by
  refine ⟨_, _, _, rfl, rfl, by decide, rfl, ?_, ?_⟩
  · exact (save_restore_roundtrip exSaveState _ _ _ exMidOps rfl rfl (by decide) rfl).1
  · exact (save_restore_roundtrip exSaveState _ _ _ exMidOps rfl rfl (by decide) rfl).2

/-! ### Claim C10 -/

/-- Claim C10: rendering returns exactly `rows` lines joined by single
newlines, where line `y` is row `y` with the cell under the in-bounds
cursor replaced by the block glyph and trailing whitespace stripped.
`getScreenContent` is a pure function of the state, so rendering mutates
nothing by construction. -/
theorem render_matches_spec (st : TermState) (hwf : wfShape st) :
    getScreenContent st =
      String.intercalate "\n"
        ((List.range st.rows).map fun y => String.mk (claimRenderLine st y)) := by
  unfold getScreenContent
  have h := enum_map_eq_range_map st.screen
    (fun p => String.mk (renderLine st p.1 p.2))
    (fun y => String.mk (claimRenderLine st y))
    (fun i hi => by
      have hcl := renderLine_eq_claim st hwf i hi
      simp only [List.get_eq_getElem]
      rw [hcl])
  rw [h, hwf.1]

/-- A screen with content and the cursor over a cell, for the render witness. -/
def exRenderState : TermState :=
  { initState 2 3 with
    screen := [['a', 'b', ' '], ['c', ' ', ' ']],
    cursor_x := 1, cursor_y := 0 }

/-- Witness for `render_matches_spec` at `exRenderState`. -/
theorem render_matches_spec_witness :
    wfShape exRenderState ∧
    getScreenContent exRenderState =
      String.intercalate "\n"
        ((List.range exRenderState.rows).map fun y => String.mk (claimRenderLine exRenderState y)) :=
  ⟨by decide, render_matches_spec exRenderState (by decide)⟩

end AITerm
